import Mathlib

/-!
Shallow embedding of `src/src/AppInstallerRepositoryCore/Microsoft/Schema/1_4/DependenciesTable.cpp`
(and its header), the V1_4 `dependencies` table of the winget-cli source index.

Modelling conventions:
* SQLite row ids are `Nat`; interned tables (`ids`, `versions`) are association
  lists from row id to string value; the `manifest` table is modelled only by
  the list of its row ids (that is all the dependencies code reads from it).
* A `std::set` ordered by a strict comparator is modelled as a list that keeps
  the first inserted representative of each comparator-equivalence class
  (`insertDepRow`), exactly the `emplace` behaviour of `std::set`; list order
  stands in for the set's iteration order, which no stated property depends on.
* SQL statements are translated by their standard SQLite semantics: `Join` is
  an inner JOIN (the inline SQL comments in the source spell it `JOIN`),
  `LeftOuterJoin` a LEFT OUTER JOIN where a NULL join column never matches;
  the unique index `dependencies_pkindex` on `(manifest, package_id)` makes an
  insert of a duplicate pair fail.
* A savepoint that is not committed rolls back: every mutating operation
  returns `Except Err Store`, and on `.error` the caller's store is unchanged
  (`applyOp` keeps the old store).
-/

/-- `Manifest::DependencyType` of the manifest model. -/
inductive DependencyType where
  | windowsFeature
  | windowsLibrary
  | package
  | external
deriving DecidableEq, Repr

/-- `Manifest::Dependency`: a declared dependency with its kind, target package
identifier and optional minimum version (modelled by the normalized string that
`MinVersion.value().ToString()` yields). -/
structure Dependency where
  depType : DependencyType
  id : String
  minVersion : Option String
deriving DecidableEq, Repr

/-- One installer of a manifest, reduced to its dependency list
(`installer.Dependencies`); `ApplyToType` filters it by `depType`. -/
structure Installer where
  dependencies : List Dependency
deriving DecidableEq, Repr

/-- `Manifest::Manifest`, reduced to the ordered installer collection the
dependencies table iterates. -/
structure Manifest where
  installers : List Installer
deriving DecidableEq, Repr

/-- A row of the `dependencies` relation: synthetic row id, `manifest` and
`package_id` references (NOT NULL) and the nullable `min_version` reference. -/
structure Edge where
  rowid : Nat
  manifest : Nat
  minVersion : Option Nat
  packageId : Nat
deriving DecidableEq, Repr

/-- The store state visible to the dependencies table: the two interned value
tables, the manifest row ids, the `dependencies` relation, whether that
relation exists in the catalog, and the next fresh row ids. -/
structure Store where
  idTable : List (Nat × String)
  versionTable : List (Nat × String)
  manifestTable : List Nat
  dependencies : List Edge
  depsTableExists : Bool
  nextEdgeRow : Nat
  nextVersionRow : Nat
deriving DecidableEq, Repr

/-- Failure modes surfaced by the dependencies table: the
`APPINSTALLER_CLI_ERROR_MISSING_PACKAGE` throw (carrying the missing
identifiers in encounter order), a violation of the unique
`(manifest, package_id)` index, `APPINSTALLER_CLI_ERROR_INVALID_TABLE_COLUMN`,
and `CREATE TABLE` on an existing relation. -/
inductive Err where
  | missingPackage (ids : List String)
  | uniqueConstraint
  | invalidTableColumn
  | tableAlreadyExists
deriving DecidableEq, Repr

/-- `DependencyTableRow` of the anonymous namespace: package row id, manifest
row id, optional version string. -/
structure DependencyTableRow where
  packageRowId : Nat
  manifestRowId : Nat
  version : Option String
deriving DecidableEq, Repr

/-- Lexicographic comparison of character sequences: the semantics of
`std::string::operator<`. -/
def charListLtb : List Char → List Char → Bool
  | [], [] => false
  | [], _ :: _ => true
  | _ :: _, [] => false
  | a :: as, b :: bs => if a < b then true else if b < a then false else charListLtb as bs

/-- `std::string::operator<` on the contents of two strings. -/
def strLtb (x y : String) : Bool := charListLtb x.data y.data

/-- `DependencyTableRow::operator<`: `std::tie` lexicographic comparison on
`(m_packageRowId, m_manifestRowId, version-or-empty-string)` — an absent
version is replaced by `""` before comparing. -/
def dtrLtb (a b : DependencyTableRow) : Bool :=
  if a.packageRowId ≠ b.packageRowId then decide (a.packageRowId < b.packageRowId)
  else if a.manifestRowId ≠ b.manifestRowId then decide (a.manifestRowId < b.manifestRowId)
  else strLtb (a.version.getD "") (b.version.getD "")

/-- `std::set` equivalence induced by `DependencyTableRow::operator<`:
neither element is less than the other. -/
def dtrEquivb (a b : DependencyTableRow) : Bool :=
  !(dtrLtb a b) && !(dtrLtb b a)

/-- The comparison key `operator<` effectively orders by. -/
def depKey (r : DependencyTableRow) : Nat × Nat × String :=
  (r.packageRowId, r.manifestRowId, r.version.getD "")

/-- `std::set<DependencyTableRow>::emplace`: no-op when an equivalent element
is already present, else the element is added (first representative kept). -/
def insertDepRow (rows : List DependencyTableRow) (r : DependencyTableRow) :
    List DependencyTableRow :=
  if rows.any (fun x => dtrEquivb x r) then rows else rows ++ [r]

/-- `IdTable::SelectIdByValue`: look up the row id interning a package
identifier, if any. -/
def selectIdByValue (s : Store) (v : String) : Option Nat :=
  (s.idTable.find? (fun r => r.2 = v)).map (·.1)

/-- `VersionTable::EnsureExists`: find-or-create the row interning a version
string, returning its row id and the (possibly extended) store. -/
def versionEnsureExists (s : Store) (v : String) : Nat × Store :=
  match s.versionTable.find? (fun r => r.2 = v) with
  | some r => (r.1, s)
  | none =>
    (s.nextVersionRow,
      { s with
        versionTable := s.versionTable ++ [(s.nextVersionRow, v)],
        nextVersionRow := s.nextVersionRow + 1 })

/-- One `INSERT INTO dependencies(manifest, min_version, package_id)`.
The unique index `dependencies_pkindex` on `(manifest, package_id)` rejects a
row whose pair is already present. -/
def insertEdge (s : Store) (manifest : Nat) (minVersion : Option Nat)
    (packageId : Nat) : Except Err Store :=
  if s.dependencies.any (fun e => e.manifest == manifest && e.packageId == packageId) then
    .error .uniqueConstraint
  else
    .ok { s with
      dependencies := s.dependencies ++ [⟨s.nextEdgeRow, manifest, minVersion, packageId⟩],
      nextEdgeRow := s.nextEdgeRow + 1 }

/-- `InsertManifestDependencies`: for each row of the set, intern its version
string (if present) and insert the edge; a failed insert aborts the whole
savepoint. -/
def insertManifestDependencies (s : Store) (rows : List DependencyTableRow) :
    Except Err Store :=
  match rows with
  | [] => .ok s
  | r :: rest =>
    let vs : Option Nat × Store :=
      match r.version with
      | some v => let p := versionEnsureExists s v; (some p.1, p.2)
      | none => (none, s)
    match insertEdge vs.2 r.manifestRowId vs.1 r.packageRowId with
    | .error e => .error e
    | .ok s2 => insertManifestDependencies s2 rest

/-- `RemoveDependenciesByRowIds`: `DELETE FROM dependencies WHERE package_id = ?
AND manifest = ?`, executed once per given row. -/
def removeDependenciesByRowIds (s : Store) (rows : List DependencyTableRow) : Store :=
  rows.foldl
    (fun st r =>
      { st with
        dependencies :=
          st.dependencies.filter
            (fun e => !(e.packageId == r.packageRowId && e.manifest == r.manifestRowId)) })
    s

/-- Loop body of `GetAndLinkDependencies`: resolve the declared package id;
an unresolved id joins the missing list, a resolved one is emplaced into the
dependency set together with the declared minimum version. -/
def linkStep (s : Store) (manifestRowId : Nat)
    (acc : List DependencyTableRow × List Dependency) (d : Dependency) :
    List DependencyTableRow × List Dependency :=
  match selectIdByValue s d.id with
  | none => (acc.1, acc.2 ++ [d])
  | some pkgRow => (insertDepRow acc.1 ⟨pkgRow, manifestRowId, d.minVersion⟩, acc.2)

/-- The double loop of `GetAndLinkDependencies`: over the installers, over
each installer's declarations of the requested type, threading the dependency
set and the missing-package list. -/
def linkFold (s : Store) (manifestRowId : Nat) (t : DependencyType)
    (man : Manifest) : List DependencyTableRow × List Dependency :=
  man.installers.foldl
    (fun acc i =>
      (i.dependencies.filter (fun d => d.depType == t)).foldl
        (linkStep s manifestRowId) acc)
    ([], [])

/-- `GetAndLinkDependencies`: iterate the installers, building the dependency
set and the missing-package list; `ThrowOnMissingPackageNodes` turns a
non-empty missing list into the missing-package error naming every collected
identifier. -/
def getAndLinkDependencies (s : Store) (man : Manifest) (manifestRowId : Nat)
    (t : DependencyType) : Except Err (List DependencyTableRow) :=
  let r := linkFold s manifestRowId t man
  if r.2.isEmpty then .ok r.1
  else .error (.missingPackage (r.2.map (·.id)))

/-- `DependenciesTable::AddDependencies`: link the declared package
dependencies and insert them; an empty set is a no-op (early return before the
savepoint commit), a failure rolls back. -/
def addDependencies (s : Store) (man : Manifest) (manifestRowId : Nat) :
    Except Err Store :=
  match getAndLinkDependencies s man manifestRowId .package with
  | .error e => .error e
  | .ok deps =>
    if deps.isEmpty then .ok s
    else insertManifestDependencies s deps

/-- `DependenciesTable::GetDependenciesByManifestRowId`:
`SELECT dep.package_id, minV.version FROM dependencies AS dep JOIN versions AS
minV ON minV.rowid = dep.min_version WHERE dep.manifest = ?`, collected into a
`std::set` of `(package row id, version string)` pairs. The inner JOIN drops
every edge whose `min_version` is NULL (a NULL join column matches no row). -/
def getDependenciesByManifestRowId (s : Store) (manifestRowId : Nat) :
    List (Nat × String) :=
  (s.dependencies.filterMap
    (fun e =>
      if e.manifest = manifestRowId then
        match e.minVersion with
        | some vr => (s.versionTable.lookup vr).map (fun vs => (e.packageId, vs))
        | none => none
      else none)).foldl
    (fun acc p => if acc.contains p then acc else acc ++ [p]) []

/-- `DependenciesTable::UpdateDependencies`: link the declared set, read the
stored set, compute the additions (declared rows whose `(package, version)`
pair the stored set lacks) and the removals (stored pairs without an
equivalent declared row), then insert the additions and delete the removals.
Returns `true` on every successful run. -/
def updateDependencies (s : Store) (man : Manifest) (manifestRowId : Nat) :
    Except Err (Store × Bool) :=
  match getAndLinkDependencies s man manifestRowId .package with
  | .error e => .error e
  | .ok deps =>
    let existing := getDependenciesByManifestRowId s manifestRowId
    let toAdd :=
      deps.filter (fun d => !(existing.contains (d.packageRowId, d.version.getD "")))
    let toRemove :=
      existing.filterMap
        (fun row =>
          if deps.any (fun d => dtrEquivb d ⟨row.1, manifestRowId, some row.2⟩) then none
          else some (DependencyTableRow.mk row.1 manifestRowId none))
    match insertManifestDependencies s toAdd with
    | .error e => .error e
    | .ok s1 => .ok (removeDependenciesByRowIds s1 toRemove, true)

/-- `DependenciesTable::RemoveDependencies`: `DELETE FROM dependencies WHERE
manifest = ?`. -/
def removeDependencies (s : Store) (manifestRowId : Nat) : Store :=
  { s with dependencies := s.dependencies.filter (fun e => !(e.manifest == manifestRowId)) }

/-- `DependenciesTable::Create`: create the relation, the unique
`(manifest, package_id)` index and the two secondary indexes; `CREATE TABLE`
fails when the relation already exists. -/
def createTable (s : Store) : Except Err Store :=
  if s.depsTableExists then .error .tableAlreadyExists
  else .ok { s with depsTableExists := true }

/-- `DependenciesTable::DependenciesTableCheckConsistency`: trivially `true`
when the relation does not exist; otherwise an edge is selected as a violation
when its LEFT OUTER JOIN against the manifest table, the version table or the
id table comes back NULL — which, for the version join, happens both when
`min_version` references no row and when `min_version` itself is NULL. The
`log` flag only changes logging, never the returned value. -/
def dependenciesTableCheckConsistency (s : Store) (_log : Bool) : Bool :=
  if !s.depsTableExists then true
  else
    (s.dependencies.filter
      (fun e =>
        !(s.manifestTable.contains e.manifest) ||
        (match e.minVersion with
         | none => true
         | some vr => !((s.versionTable.map (·.1)).contains vr)) ||
        !((s.idTable.map (·.1)).contains e.packageId))).isEmpty

/-- `DependenciesTable::IsValueReferenced`: reject a column name outside
`min_version` / `manifest` / `package_id`, else return the row id of the first
edge whose named column equals the candidate row id (`LIMIT 1`), if any. -/
def isValueReferenced (s : Store) (valueName : String) (valueRowId : Nat) :
    Except Err (Option Nat) :=
  if valueName = "min_version" ∨ valueName = "manifest" ∨ valueName = "package_id" then
    .ok ((s.dependencies.find?
      (fun e =>
        if valueName = "min_version" then e.minVersion == some valueRowId
        else if valueName = "manifest" then e.manifest == valueRowId
        else e.packageId == valueRowId)).map (·.rowid))
  else .error .invalidTableColumn

/-- The public mutating operations of the table. -/
inductive Op where
  | create
  | add (man : Manifest) (mId : Nat)
  | update (man : Manifest) (mId : Nat)
  | remove (mId : Nat)

/-- Run one operation with savepoint semantics: a thrown error rolls the store
back to its state before the call. -/
def applyOp (s : Store) : Op → Store
  | .create =>
    match createTable s with
    | .ok s2 => s2
    | .error _ => s
  | .add man mId =>
    match addDependencies s man mId with
    | .ok s2 => s2
    | .error _ => s
  | .update man mId =>
    match updateDependencies s man mId with
    | .ok p => p.1
    | .error _ => s
  | .remove mId => removeDependencies s mId

/-- Store states reachable through the public operations, starting from any
store whose `dependencies` relation is empty (interned tables and manifest
rows are managed by other components and may hold anything). -/
inductive Reachable : Store → Prop
  | init (s : Store) : s.dependencies = [] → Reachable s
  | step (s : Store) (op : Op) : Reachable s → Reachable (applyOp s op)

/-- The uniqueness invariant of `dependencies_pkindex`: no two stored edges
share the `(manifest, package_id)` pair. -/
def UniqueManifestPackage (l : List Edge) : Prop :=
  l.Pairwise (fun a b => ¬(a.manifest = b.manifest ∧ a.packageId = b.packageId))

/-- The predicate `IsValueReferenced` evaluates per edge for each of the three
legal column names: `min_version = ?` (NULL never matches), `manifest = ?`,
`package_id = ?`. -/
def refColumnMatches (valueName : String) (valueRowId : Nat) (e : Edge) : Prop :=
  if valueName = "min_version" then e.minVersion = some valueRowId
  else if valueName = "manifest" then e.manifest = valueRowId
  else e.packageId = valueRowId

/-- The missing-package list `GetAndLinkDependencies` accumulates: across the
installers in order, the declarations of the requested type whose package
identifier is not interned. -/
def missingDeps (s : Store) (t : DependencyType) : List Installer → List Dependency
  | [] => []
  | i :: rest =>
    (i.dependencies.filter (fun d => d.depType == t)).filter
        (fun d => (selectIdByValue s d.id).isNone) ++
      missingDeps s t rest

/-- A store whose id table holds package `P` (row 1), with manifest row 1 and
no stored dependency edges. -/
def storeP : Store := ⟨[(1, "P")], [], [1], [], true, 1, 1⟩

/-- A manifest with a single installer declaring a package dependency on `P`
with no minimum version. -/
def manifestDepP : Manifest := ⟨[⟨[⟨.package, "P", none⟩]⟩]⟩

/-- `storeP` after the edge `(manifest 1, package 1, min_version NULL)` was
inserted. -/
def storePAfterAdd : Store := ⟨[(1, "P")], [], [1], [⟨1, 1, none, 1⟩], true, 2, 1⟩

/-- Store for the diff scenario of the spec: packages `P1`/`P2`/`P3` interned
as rows 1/2/3, version `1.0` interned as row 1, manifest row 1 owning the
edges `(P1, "1.0")` and `(P2, no minimum version)`. -/
def storeDiff : Store :=
  ⟨[(1, "P1"), (2, "P2"), (3, "P3")], [(1, "1.0")], [1],
    [⟨1, 1, some 1, 1⟩, ⟨2, 1, none, 2⟩], true, 3, 2⟩

/-- Manifest declaring `(P1, "2.0")` and `(P3, no minimum version)`. -/
def manifestDiff : Manifest :=
  ⟨[⟨[⟨.package, "P1", some "2.0"⟩, ⟨.package, "P3", none⟩]⟩]⟩

/-- A fully populated store: manifest row 1, package `P` interned as row 1,
and one edge from the manifest to the package with no minimum version — every
reference of the edge resolves. -/
def storeVersionlessEdge : Store := ⟨[(1, "P")], [], [1], [⟨1, 1, none, 1⟩], true, 2, 1⟩

/-- A store with all tables empty (the dependencies relation exists). -/
def emptyStore : Store := ⟨[], [], [], [], true, 1, 1⟩

/-- A manifest with no installers, hence no declared dependencies. -/
def emptyManifest : Manifest := ⟨[]⟩

/-- A manifest declaring a package dependency on `Q`, which `emptyStore` does
not intern. -/
def manifestDepQ : Manifest := ⟨[⟨[⟨.package, "Q", some "1.0"⟩]⟩]⟩

/-- A manifest with two installers both declaring the same package dependency
`(P, no minimum version)`. -/
def manifestDupP : Manifest :=
  ⟨[⟨[⟨.package, "P", none⟩]⟩, ⟨[⟨.package, "P", none⟩]⟩]⟩

/-- C1: after a successful `Add`, `Query dependencies` is claimed to return the
normalized declared set, with versionless edges surfacing with an empty
version marker. On the code, adding the single dependency `(P, no minimum
version)` succeeds and stores the edge, but the read query inner-joins the
version table, so the versionless edge is dropped: the query returns `[]`
instead of the claimed `[(1, "")]`. -/
theorem c1_query_after_add_drops_versionless_edge :
    addDependencies storeP manifestDepP 1 = Except.ok storePAfterAdd ∧
    storePAfterAdd.dependencies = [⟨1, 1, none, 1⟩] ∧
    getDependenciesByManifestRowId storePAfterAdd 1 = [] :=
  ⟨rfl, rfl, rfl⟩

/-- C2: with stored set `{(P1, "1.0"), (P2, absent)}` and declared set
`{(P1, "2.0"), (P3, absent)}`, the claimed reconciliation result is
`{(P1, "2.0"), (P3, absent)}`. On the code, `Update` inserts the additions
before deleting the removals, so inserting `(manifest 1, P1)` with the new
version collides with the still-present `(manifest 1, P1)` edge on the unique
`(manifest, package_id)` index and the whole operation throws and rolls back. -/
theorem c2_update_diff_scenario_throws_unique_constraint :
    updateDependencies storeDiff manifestDiff 1 = Except.error Err.uniqueConstraint ∧
    applyOp storeDiff (Op.update manifestDiff 1) = storeDiff :=
  ⟨rfl, rfl⟩

/-- C3: `Update(M, D)` twice in succession is claimed to make the second call
a no-op. On the code, with `D = {(P, no minimum version)}`, the first call
succeeds and stores the versionless edge, but the second call's read query
(inner join) does not surface that edge, so the edge lands in `to_add` again
and its insert violates the unique `(manifest, package_id)` index: the second
call throws instead of being a no-op. -/
theorem c3_second_update_throws_instead_of_noop :
    updateDependencies storeP manifestDepP 1 = Except.ok (storePAfterAdd, true) ∧
    updateDependencies storePAfterAdd manifestDepP 1 = Except.error Err.uniqueConstraint ∧
    applyOp storePAfterAdd (Op.update manifestDepP 1) = storePAfterAdd :=
  ⟨rfl, rfl, rfl⟩

/-- C5 counterexample: the claim says an absent version compares as distinct
from an empty-string version. On the code, `operator<` substitutes `""` for an
absent version before comparing, so the rows `(package 1, manifest 1, absent)`
and `(package 1, manifest 1, "")` are equivalent under the set comparator and
the second is not added to a set already holding the first. -/
theorem c5_absent_version_equals_empty_string_version :
    dtrEquivb ⟨1, 1, none⟩ ⟨1, 1, some ""⟩ = true ∧
    insertDepRow [⟨1, 1, none⟩] ⟨1, 1, some ""⟩ = [⟨1, 1, none⟩] :=
  ⟨rfl, rfl⟩

/-- C6: the consistency scan is claimed to accept a fully populated store
whose edges may lack a minimum version. On the code, the version left-join
column is NULL for an edge whose `min_version` is NULL, and the `WHERE`
clause counts that as a violation: the scan returns `false` (in both logging
modes) on a store whose single edge resolves its manifest and package
references and has no minimum version. -/
theorem c6_consistency_flags_versionless_edge :
    dependenciesTableCheckConsistency storeVersionlessEdge true = false ∧
    dependenciesTableCheckConsistency storeVersionlessEdge false = false :=
  ⟨rfl, rfl⟩

/-- C7 counterexample: the claim says `Update(M, D)` returns `true` iff `D` is
non-empty. On the code, updating with an empty declared set completes and
still returns `true`. -/
theorem c7_update_with_empty_declared_set_returns_true :
    updateDependencies emptyStore emptyManifest 1 = Except.ok (emptyStore, true) :=
  rfl

/-- `charListLtb` is irreflexive. -/
theorem charListLtb_self_eq_false (l : List Char) : charListLtb l l = false := by
  induction l with
  | nil => rfl
  | cons a as ih =>
    simp only [charListLtb, lt_irrefl, if_false, ih, if_neg (lt_irrefl a)]

/-- Two character sequences neither of which precedes the other are equal. -/
theorem charListLtb_eq_of_not_lt (l₁ : List Char) :
    ∀ l₂, charListLtb l₁ l₂ = false → charListLtb l₂ l₁ = false → l₁ = l₂ := by
  induction l₁ with
  | nil =>
    intro l₂ h₁ _
    cases l₂ with
    | nil => rfl
    | cons b bs => simp [charListLtb] at h₁
  | cons a as ih =>
    intro l₂ h₁ h₂
    cases l₂ with
    | nil => simp [charListLtb] at h₂
    | cons b bs =>
      simp only [charListLtb] at h₁ h₂
      by_cases hab : a < b
      · rw [if_pos hab] at h₁; exact absurd h₁ (by simp)
      · rw [if_neg hab] at h₁
        by_cases hba : b < a
        · rw [if_pos hba] at h₂; exact absurd h₂ (by simp)
        · rw [if_neg hba] at h₁ h₂
          rw [if_neg hab] at h₂
          have hchar : a = b := le_antisymm (not_lt.mp hba) (not_lt.mp hab)
          rw [hchar, ih bs h₁ h₂]

/-- `strLtb` is irreflexive. -/
theorem strLtb_self_eq_false (x : String) : strLtb x x = false :=
  charListLtb_self_eq_false x.data

/-- Two strings neither of which precedes the other are equal. -/
theorem strLtb_eq_of_not_lt (x y : String) (h₁ : strLtb x y = false)
    (h₂ : strLtb y x = false) : x = y := by
  cases x with
  | mk xl =>
    cases y with
    | mk yl =>
      exact congrArg String.mk (charListLtb_eq_of_not_lt xl yl h₁ h₂)

/-- The `std::set` equivalence induced by `DependencyTableRow::operator<`
coincides with equality of the normalized comparison key. -/
theorem dtrEquivb_eq_true_iff (a b : DependencyTableRow) :
    dtrEquivb a b = true ↔ depKey a = depKey b := by
  obtain ⟨ap, am, av⟩ := a
  obtain ⟨bp, bm, bv⟩ := b
  by_cases hp : ap = bp
  · subst hp
    by_cases hm : am = bm
    · subst hm
      simp only [dtrEquivb, dtrLtb, depKey, Bool.and_eq_true, Bool.not_eq_true',
        ne_eq, not_true_eq_false, if_false, Prod.mk.injEq, true_and]
      constructor
      · rintro ⟨h₁, h₂⟩
        exact strLtb_eq_of_not_lt _ _ h₁ h₂
      · intro h
        rw [h]
        exact ⟨strLtb_self_eq_false _, strLtb_self_eq_false _⟩
    · have hm' : ¬bm = am := fun h => hm h.symm
      simp only [dtrEquivb, dtrLtb, depKey, Bool.and_eq_true, Bool.not_eq_true',
        ne_eq, not_true_eq_false, if_false, hm, hm', not_false_eq_true, if_true,
        Prod.mk.injEq, true_and, decide_eq_false_iff_not, not_lt]
      constructor
      · rintro ⟨h₁, h₂⟩
        exact absurd (le_antisymm h₂ h₁) hm
      · rintro ⟨h, -⟩
        exact h.elim
  · have hp' : ¬bp = ap := fun h => hp h.symm
    simp only [dtrEquivb, dtrLtb, depKey, Bool.and_eq_true, Bool.not_eq_true', ne_eq,
      hp, hp', not_false_eq_true, if_true, Prod.mk.injEq, decide_eq_false_iff_not, not_lt]
    constructor
    · rintro ⟨h₁, h₂⟩
      exact absurd (le_antisymm h₂ h₁) hp
    · rintro ⟨h, -⟩
      exact h.elim

/-- C5 (amended): the reconciliation comparison key normalizes an absent
minimum version to the empty string — two dependency table rows are
equivalent under the diff comparator exactly when they agree on package row,
manifest row, and version-string-or-empty. In particular an absent version is
equivalent to an empty-string version and distinct from any non-empty one. -/
theorem c5_amended_comparator_key_normalizes_absent_to_empty
    (a b : DependencyTableRow) :
    dtrEquivb a b = true ↔
      a.packageRowId = b.packageRowId ∧ a.manifestRowId = b.manifestRowId ∧
        a.version.getD "" = b.version.getD "" := by
  rw [dtrEquivb_eq_true_iff]
  simp [depKey, Prod.ext_iff]

/-- C7 (amended): `UpdateDependencies` returns `true` unconditionally whenever
it completes without throwing; the return value does not distinguish an empty
declared set from a processed one. -/
theorem c7_amended_update_returns_true_unconditionally
    (s : Store) (man : Manifest) (mId : Nat) (s₂ : Store) (b : Bool)
    (h : updateDependencies s man mId = Except.ok (s₂, b)) : b = true := by
  unfold updateDependencies at h
  split at h
  · exact Except.noConfusion h
  · dsimp only at h
    split at h
    · exact Except.noConfusion h
    · have := congrArg Prod.snd (Except.ok.inj h)
      exact this.symm

/-- Witness for C7 (amended): the empty update on the empty store returns
`true`. -/
theorem c7_amended_update_witness : (true : Bool) = true :=
  c7_amended_update_returns_true_unconditionally emptyStore emptyManifest 1 emptyStore true rfl

/-- The missing-declaration component of the inner `GetAndLinkDependencies`
loop: the declarations whose package id does not resolve, appended in order. -/
theorem linkStep_foldl_snd (s : Store) (mId : Nat) (ds : List Dependency) :
    ∀ acc : List DependencyTableRow × List Dependency,
      (ds.foldl (linkStep s mId) acc).2 =
        acc.2 ++ ds.filter (fun d => (selectIdByValue s d.id).isNone) := by
  induction ds with
  | nil => intro acc; simp
  | cons d rest ih =>
    intro acc
    rw [List.foldl_cons, ih]
    cases hsel : selectIdByValue s d.id with
    | none =>
      simp [linkStep, hsel, List.filter_cons]
    | some p =>
      simp [linkStep, hsel, List.filter_cons]

/-- The missing-declaration component of the full `GetAndLinkDependencies`
double loop equals `missingDeps`. -/
theorem linkFold_snd (s : Store) (mId : Nat) (t : DependencyType) :
    ∀ (is : List Installer) (acc : List DependencyTableRow × List Dependency),
      ((is.foldl
        (fun acc i =>
          (i.dependencies.filter (fun d => d.depType == t)).foldl (linkStep s mId) acc)
        acc).2) = acc.2 ++ missingDeps s t is := by
  intro is
  induction is with
  | nil => intro acc; simp [missingDeps]
  | cons i rest ih =>
    intro acc
    rw [List.foldl_cons, ih, linkStep_foldl_snd, missingDeps, List.append_assoc]

/-- Membership in `missingDeps`: exactly the declared dependencies of the
requested type whose package identifier is not interned. -/
theorem mem_missingDeps (s : Store) (t : DependencyType) :
    ∀ (is : List Installer) (d : Dependency),
      d ∈ missingDeps s t is ↔
        ∃ i ∈ is, d ∈ i.dependencies ∧ d.depType = t ∧ selectIdByValue s d.id = none := by
  intro is
  induction is with
  | nil => intro d; simp [missingDeps]
  | cons i rest ih =>
    intro d
    simp only [missingDeps, List.mem_append, List.mem_filter, List.mem_cons, ih,
      Option.isNone_iff_eq_none, beq_iff_eq]
    constructor
    · rintro (⟨⟨hd, ht⟩, hn⟩ | ⟨j, hj, hd, ht, hn⟩)
      · exact ⟨i, Or.inl rfl, hd, ht, hn⟩
      · exact ⟨j, Or.inr hj, hd, ht, hn⟩
    · rintro ⟨j, hj | hj, hd, ht, hn⟩
      · exact Or.inl ⟨⟨hj ▸ hd, ht⟩, hn⟩
      · exact Or.inr ⟨j, hj, hd, ht, hn⟩

/-- When some declaration does not resolve, `GetAndLinkDependencies` throws
the missing-package error naming the identifiers of `missingDeps`. -/
theorem getAndLinkDependencies_error_of_missing (s : Store) (man : Manifest)
    (mId : Nat) (t : DependencyType) (h : missingDeps s t man.installers ≠ []) :
    getAndLinkDependencies s man mId t =
      Except.error (.missingPackage ((missingDeps s t man.installers).map (·.id))) := by
  unfold getAndLinkDependencies linkFold
  have h2 := linkFold_snd s mId t man.installers ([], [])
  simp only [List.nil_append] at h2
  dsimp only
  rw [h2]
  simp [List.isEmpty_iff, h]

/-- C4: if any declared package-type dependency of the manifest has no row in
the identifier table, `AddDependencies` fails with the missing-package error
naming every unresolved identifier, and the store — in particular its stored
edge set — is left exactly as it was (savepoint rollback, nothing inserted). -/
theorem c4_add_missing_package_fails_and_inserts_nothing
    (s : Store) (man : Manifest) (mId : Nat)
    (h : ∃ i ∈ man.installers, ∃ d ∈ i.dependencies,
      d.depType = DependencyType.package ∧ selectIdByValue s d.id = none) :
    addDependencies s man mId =
      Except.error (Err.missingPackage
        ((missingDeps s DependencyType.package man.installers).map (·.id))) ∧
    (∀ i ∈ man.installers, ∀ d ∈ i.dependencies,
      d.depType = DependencyType.package → selectIdByValue s d.id = none →
        d.id ∈ (missingDeps s DependencyType.package man.installers).map (·.id)) ∧
    applyOp s (Op.add man mId) = s := by
  obtain ⟨i, hi, d, hd, ht, hn⟩ := h
  have hmem : d ∈ missingDeps s DependencyType.package man.installers :=
    (mem_missingDeps s DependencyType.package man.installers d).mpr ⟨i, hi, hd, ht, hn⟩
  have hne : missingDeps s DependencyType.package man.installers ≠ [] :=
    List.ne_nil_of_mem hmem
  have herr := getAndLinkDependencies_error_of_missing s man mId DependencyType.package hne
  have hadd : addDependencies s man mId =
      Except.error (Err.missingPackage
        ((missingDeps s DependencyType.package man.installers).map (·.id))) := by
    unfold addDependencies
    rw [herr]
  refine ⟨hadd, ?_, ?_⟩
  · intro i2 hi2 d2 hd2 ht2 hn2
    exact List.mem_map_of_mem _
      ((mem_missingDeps s DependencyType.package man.installers d2).mpr ⟨i2, hi2, hd2, ht2, hn2⟩)
  · simp only [applyOp, hadd]

/-- Witness for C4 at a concrete input: the empty store interns no package, so
adding a manifest depending on `Q` fails with the missing-package error and
leaves the store untouched. -/
theorem c4_add_missing_package_witness :
    addDependencies emptyStore manifestDepQ 1 =
      Except.error (Err.missingPackage
        ((missingDeps emptyStore DependencyType.package manifestDepQ.installers).map (·.id))) ∧
    (∀ i ∈ manifestDepQ.installers, ∀ d ∈ i.dependencies,
      d.depType = DependencyType.package → selectIdByValue emptyStore d.id = none →
        d.id ∈ (missingDeps emptyStore DependencyType.package manifestDepQ.installers).map (·.id)) ∧
    applyOp emptyStore (Op.add manifestDepQ 1) = emptyStore :=
  c4_add_missing_package_fails_and_inserts_nothing emptyStore manifestDepQ 1
    ⟨⟨[⟨.package, "Q", some "1.0"⟩]⟩, by simp [manifestDepQ],
      ⟨.package, "Q", some "1.0"⟩, by simp, rfl, rfl⟩

/-- C8: `IsValueReferenced` accepts exactly the three reference column names;
for an accepted name it reports the row id of an edge referencing the
candidate row id through that column iff one exists (and `none` otherwise),
and for any other name it fails with the invalid-column error. -/
theorem c8_is_value_referenced_correct (s : Store) (name : String) (v : Nat) :
    ((name = "min_version" ∨ name = "manifest" ∨ name = "package_id") →
      ∃ o, isValueReferenced s name v = Except.ok o ∧
        (o.isSome = true ↔ ∃ e ∈ s.dependencies, refColumnMatches name v e) ∧
        (∀ r, o = some r →
          ∃ e ∈ s.dependencies, refColumnMatches name v e ∧ e.rowid = r)) ∧
    (¬(name = "min_version" ∨ name = "manifest" ∨ name = "package_id") →
      isValueReferenced s name v = Except.error Err.invalidTableColumn) := by
  have hpm : ∀ e : Edge,
      (if name = "min_version" then e.minVersion == some v
       else if name = "manifest" then e.manifest == v
       else e.packageId == v) = true ↔ refColumnMatches name v e := by
    intro e
    unfold refColumnMatches
    by_cases h1 : name = "min_version"
    · simp [h1]
    · by_cases h2 : name = "manifest" <;> simp [h1, h2]
  constructor
  · intro hvalid
    unfold isValueReferenced
    rw [if_pos hvalid]
    cases hf : s.dependencies.find?
        (fun e =>
          if name = "min_version" then e.minVersion == some v
          else if name = "manifest" then e.manifest == v
          else e.packageId == v) with
    | none =>
      refine ⟨none, rfl, ?_, ?_⟩
      · simp only [Option.isSome_none, Bool.false_eq_true, false_iff]
        rintro ⟨e, he, hm⟩
        have := List.find?_eq_none.mp hf e he
        rw [hpm] at this
        exact this hm
      · intro r hr
        exact Option.noConfusion hr
    | some e =>
      have hmem := List.mem_of_find?_eq_some hf
      have hpe := List.find?_some hf
      refine ⟨some e.rowid, rfl, ?_, ?_⟩
      · simp only [Option.isSome_some, true_iff]
        exact ⟨e, hmem, (hpm e).mp hpe⟩
      · intro r hr
        cases Option.some.inj hr
        exact ⟨e, hmem, (hpm e).mp hpe, rfl⟩
  · intro hinvalid
    unfold isValueReferenced
    rw [if_neg hinvalid]

/-- Witness for C8 at a concrete input: on the store holding the single edge
`(manifest 1, package 1)`, the reference check on the `manifest` column for
row id 1 behaves as stated. -/
theorem c8_is_value_referenced_witness :
    ∃ o, isValueReferenced storePAfterAdd "manifest" 1 = Except.ok o ∧
      (o.isSome = true ↔ ∃ e ∈ storePAfterAdd.dependencies, refColumnMatches "manifest" 1 e) ∧
      (∀ r, o = some r →
        ∃ e ∈ storePAfterAdd.dependencies, refColumnMatches "manifest" 1 e ∧ e.rowid = r) :=
  (c8_is_value_referenced_correct storePAfterAdd "manifest" 1).1 (Or.inr (Or.inl rfl))

/-- A successful raw insert preserves the `(manifest, package_id)` uniqueness
invariant: the unique index admits the new row only when no stored edge
already carries the pair. -/
theorem uniqueManifestPackage_insertEdge (s : Store) (m : Nat) (v : Option Nat)
    (p : Nat) (s₂ : Store) (h : insertEdge s m v p = Except.ok s₂)
    (hu : UniqueManifestPackage s.dependencies) :
    UniqueManifestPackage s₂.dependencies := by
  unfold insertEdge at h
  split at h
  · exact Except.noConfusion h
  · rename_i hany
    cases h
    refine List.pairwise_append.mpr ⟨hu, List.pairwise_singleton _ _, ?_⟩
    intro a ha b hb
    rw [List.mem_singleton] at hb
    subst hb
    have := List.any_eq_false.mp (Bool.eq_false_iff.mpr hany) a ha
    simp only [Bool.and_eq_true, beq_iff_eq, not_and] at this
    rintro ⟨h1, h2⟩
    exact this h1 h2

/-- Interning a version string does not touch the `dependencies` relation. -/
theorem versionEnsureExists_dependencies (s : Store) (v : String) :
    (versionEnsureExists s v).2.dependencies = s.dependencies := by
  unfold versionEnsureExists
  split <;> rfl

/-- A successful `InsertManifestDependencies` preserves the uniqueness
invariant. -/
theorem uniqueManifestPackage_insertManifestDependencies :
    ∀ (rows : List DependencyTableRow) (s s₂ : Store),
      insertManifestDependencies s rows = Except.ok s₂ →
      UniqueManifestPackage s.dependencies → UniqueManifestPackage s₂.dependencies := by
  intro rows
  induction rows with
  | nil =>
    intro s s₂ h hu
    cases h
    exact hu
  | cons r rest ih =>
    intro s s₂ h hu
    rw [insertManifestDependencies] at h
    cases hv : r.version with
    | none =>
      simp only [hv] at h
      cases he : insertEdge s r.manifestRowId none r.packageRowId with
      | error e =>
        rw [he] at h
        exact Except.noConfusion h
      | ok s₃ =>
        rw [he] at h
        exact ih s₃ s₂ h (uniqueManifestPackage_insertEdge s _ _ _ s₃ he hu)
    | some ver =>
      simp only [hv] at h
      cases he : insertEdge (versionEnsureExists s ver).2 r.manifestRowId
          (some (versionEnsureExists s ver).1) r.packageRowId with
      | error e =>
        rw [he] at h
        exact Except.noConfusion h
      | ok s₃ =>
        rw [he] at h
        have hu2 : UniqueManifestPackage (versionEnsureExists s ver).2.dependencies := by
          rw [versionEnsureExists_dependencies]
          exact hu
        exact ih s₃ s₂ h (uniqueManifestPackage_insertEdge _ _ _ _ s₃ he hu2)

/-- Deleting edges preserves the uniqueness invariant. -/
theorem uniqueManifestPackage_removeByRowIds :
    ∀ (rows : List DependencyTableRow) (s : Store),
      UniqueManifestPackage s.dependencies →
      UniqueManifestPackage (removeDependenciesByRowIds s rows).dependencies := by
  intro rows
  induction rows with
  | nil => intro s hu; exact hu
  | cons r rest ih =>
    intro s hu
    rw [removeDependenciesByRowIds, List.foldl_cons]
    exact ih _ (List.Pairwise.sublist (List.filter_sublist _) hu)

/-- A successful `AddDependencies` preserves the uniqueness invariant. -/
theorem uniqueManifestPackage_add (s : Store) (man : Manifest) (mId : Nat)
    (s₂ : Store) (h : addDependencies s man mId = Except.ok s₂)
    (hu : UniqueManifestPackage s.dependencies) :
    UniqueManifestPackage s₂.dependencies := by
  unfold addDependencies at h
  split at h
  · exact Except.noConfusion h
  · split at h
    · cases h
      exact hu
    · exact uniqueManifestPackage_insertManifestDependencies _ s s₂ h hu

/-- A successful `UpdateDependencies` preserves the uniqueness invariant. -/
theorem uniqueManifestPackage_update (s : Store) (man : Manifest) (mId : Nat)
    (p : Store × Bool) (h : updateDependencies s man mId = Except.ok p)
    (hu : UniqueManifestPackage s.dependencies) :
    UniqueManifestPackage p.1.dependencies := by
  unfold updateDependencies at h
  split at h
  · exact Except.noConfusion h
  · dsimp only at h
    split at h
    · exact Except.noConfusion h
    · rename_i s₃ heq
      injection h with h2
      subst h2
      exact uniqueManifestPackage_removeByRowIds _ s₃
        (uniqueManifestPackage_insertManifestDependencies _ s s₃ heq hu)

/-- C9: every store reachable through the public operations (`Create`, `Add`,
`Update`, `Remove`) keeps the unique-index invariant: no two stored edges
share the `(manifest, package_id)` pair. -/
theorem c9_reachable_stores_have_unique_manifest_package_pairs
    (s : Store) (h : Reachable s) : UniqueManifestPackage s.dependencies := by
  induction h with
  | init s hs =>
    unfold UniqueManifestPackage
    rw [hs]
    exact List.Pairwise.nil
  | step s op hr ih =>
    cases op with
    | create =>
      cases hc : createTable s with
      | error e =>
        simp only [applyOp, hc]
        exact ih
      | ok s₂ =>
        simp only [applyOp, hc]
        have hdeps : s₂.dependencies = s.dependencies := by
          unfold createTable at hc
          split at hc
          · exact Except.noConfusion hc
          · cases hc
            rfl
        unfold UniqueManifestPackage
        rw [hdeps]
        exact ih
    | add man mId =>
      cases ha : addDependencies s man mId with
      | error e =>
        simp only [applyOp, ha]
        exact ih
      | ok s₂ =>
        simp only [applyOp, ha]
        exact uniqueManifestPackage_add s man mId s₂ ha ih
    | update man mId =>
      cases hupd : updateDependencies s man mId with
      | error e =>
        simp only [applyOp, hupd]
        exact ih
      | ok p =>
        simp only [applyOp, hupd]
        exact uniqueManifestPackage_update s man mId p hupd ih
    | remove mId =>
      simp only [applyOp]
      unfold removeDependencies UniqueManifestPackage
      exact List.Pairwise.sublist (List.filter_sublist _) ih

/-- Witness for C9 at a concrete reachable store: starting from `storeP`
(empty edge set) and adding `manifestDepP`, the resulting store satisfies the
invariant. -/
theorem c9_unique_pairs_witness :
    UniqueManifestPackage (applyOp storeP (Op.add manifestDepP 1)).dependencies :=
  c9_reachable_stores_have_unique_manifest_package_pairs _
    (Reachable.step storeP (Op.add manifestDepP 1) (Reachable.init storeP rfl))

/-- Key membership after a set emplace: the keys are those already present,
plus the key of the emplaced row. -/
theorem mem_map_key_insertDepRow (l : List DependencyTableRow)
    (r : DependencyTableRow) (k : Nat × Nat × String) :
    k ∈ (insertDepRow l r).map depKey ↔ k ∈ l.map depKey ∨ k = depKey r := by
  unfold insertDepRow
  by_cases hc : (l.any fun x => dtrEquivb x r) = true
  · rw [if_pos hc]
    have hr : depKey r ∈ l.map depKey := by
      obtain ⟨x, hx, hxe⟩ := List.any_eq_true.mp hc
      exact List.mem_map.mpr ⟨x, hx, (dtrEquivb_eq_true_iff x r).mp hxe⟩
    constructor
    · exact Or.inl
    · rintro (h | h)
      · exact h
      · rw [h]
        exact hr
  · rw [if_neg hc]
    simp [List.mem_append]

/-- A set emplace preserves pairwise distinctness of the comparison keys. -/
theorem pairwise_key_insertDepRow (l : List DependencyTableRow)
    (r : DependencyTableRow)
    (h : l.Pairwise (fun a b => depKey a ≠ depKey b)) :
    (insertDepRow l r).Pairwise (fun a b => depKey a ≠ depKey b) := by
  unfold insertDepRow
  by_cases hc : (l.any fun x => dtrEquivb x r) = true
  · rw [if_pos hc]
    exact h
  · rw [if_neg hc]
    refine List.pairwise_append.mpr ⟨h, List.pairwise_singleton _ _, ?_⟩
    intro a ha b hb
    rw [List.mem_singleton] at hb
    rw [hb]
    have hne := List.any_eq_false.mp (Bool.eq_false_iff.mpr hc) a ha
    intro hk
    exact hne ((dtrEquivb_eq_true_iff a r).mpr hk)

/-- The inner `GetAndLinkDependencies` loop preserves pairwise distinctness of
the dependency-set keys. -/
theorem linkStep_foldl_fst_pairwise (s : Store) (mId : Nat) :
    ∀ (ds : List Dependency) (acc : List DependencyTableRow × List Dependency),
      acc.1.Pairwise (fun a b => depKey a ≠ depKey b) →
      ((ds.foldl (linkStep s mId) acc).1).Pairwise (fun a b => depKey a ≠ depKey b) := by
  intro ds
  induction ds with
  | nil => intro acc hp; exact hp
  | cons d rest ih =>
    intro acc hp
    rw [List.foldl_cons]
    apply ih
    cases hsel : selectIdByValue s d.id with
    | none =>
      simp only [linkStep, hsel]
      exact hp
    | some p =>
      simp only [linkStep, hsel]
      exact pairwise_key_insertDepRow _ _ hp

/-- Keys present in the accumulator survive the inner loop. -/
theorem linkStep_foldl_fst_keys_mono (s : Store) (mId : Nat) :
    ∀ (ds : List Dependency) (acc : List DependencyTableRow × List Dependency)
      (k : Nat × Nat × String), k ∈ acc.1.map depKey →
      k ∈ ((ds.foldl (linkStep s mId) acc).1).map depKey := by
  intro ds
  induction ds with
  | nil => intro acc k hk; exact hk
  | cons d rest ih =>
    intro acc k hk
    rw [List.foldl_cons]
    apply ih
    cases hsel : selectIdByValue s d.id with
    | none =>
      simp only [linkStep, hsel]
      exact hk
    | some p =>
      simp only [linkStep, hsel]
      exact (mem_map_key_insertDepRow _ _ _).mpr (Or.inl hk)

/-- Every resolvable declaration processed by the inner loop leaves its
normalized key in the dependency set. -/
theorem linkStep_foldl_fst_keys_mem (s : Store) (mId : Nat) :
    ∀ (ds : List Dependency) (acc : List DependencyTableRow × List Dependency)
      (d : Dependency) (p : Nat), d ∈ ds → selectIdByValue s d.id = some p →
      (p, mId, d.minVersion.getD "") ∈ ((ds.foldl (linkStep s mId) acc).1).map depKey := by
  intro ds
  induction ds with
  | nil =>
    intro acc d p hd
    exact absurd hd (List.not_mem_nil d)
  | cons d0 rest ih =>
    intro acc d p hd hsel
    rw [List.foldl_cons]
    rcases List.mem_cons.mp hd with hd | hd
    · subst hd
      apply linkStep_foldl_fst_keys_mono s mId rest
      simp only [linkStep, hsel]
      exact (mem_map_key_insertDepRow _ _ _).mpr (Or.inr rfl)
    · exact ih _ d p hd hsel

/-- The full `GetAndLinkDependencies` double loop preserves pairwise
distinctness of the dependency-set keys. -/
theorem linkFold_fst_pairwise (s : Store) (mId : Nat) (t : DependencyType) :
    ∀ (is : List Installer) (acc : List DependencyTableRow × List Dependency),
      acc.1.Pairwise (fun a b => depKey a ≠ depKey b) →
      ((is.foldl
        (fun acc i =>
          (i.dependencies.filter (fun d => d.depType == t)).foldl (linkStep s mId) acc)
        acc).1).Pairwise (fun a b => depKey a ≠ depKey b) := by
  intro is
  induction is with
  | nil => intro acc hp; exact hp
  | cons i rest ih =>
    intro acc hp
    rw [List.foldl_cons]
    exact ih _ (linkStep_foldl_fst_pairwise s mId _ acc hp)

/-- Keys present in the accumulator survive the double loop. -/
theorem linkFold_fst_keys_mono (s : Store) (mId : Nat) (t : DependencyType) :
    ∀ (is : List Installer) (acc : List DependencyTableRow × List Dependency)
      (k : Nat × Nat × String), k ∈ acc.1.map depKey →
      k ∈ ((is.foldl
        (fun acc i =>
          (i.dependencies.filter (fun d => d.depType == t)).foldl (linkStep s mId) acc)
        acc).1).map depKey := by
  intro is
  induction is with
  | nil => intro acc k hk; exact hk
  | cons i rest ih =>
    intro acc k hk
    rw [List.foldl_cons]
    exact ih _ k (linkStep_foldl_fst_keys_mono s mId _ acc k hk)

/-- Every resolvable declaration of the requested type, in any installer,
leaves its normalized key in the dependency set built by the double loop. -/
theorem linkFold_fst_keys_mem (s : Store) (mId : Nat) (t : DependencyType) :
    ∀ (is : List Installer) (acc : List DependencyTableRow × List Dependency)
      (i : Installer) (d : Dependency) (p : Nat),
      i ∈ is → d ∈ i.dependencies → d.depType = t → selectIdByValue s d.id = some p →
      (p, mId, d.minVersion.getD "") ∈ ((is.foldl
        (fun acc i =>
          (i.dependencies.filter (fun d => d.depType == t)).foldl (linkStep s mId) acc)
        acc).1).map depKey := by
  intro is
  induction is with
  | nil =>
    intro acc i d p hi
    exact absurd hi (List.not_mem_nil i)
  | cons i0 rest ih =>
    intro acc i d p hi hd ht hsel
    rw [List.foldl_cons]
    rcases List.mem_cons.mp hi with hi | hi
    · subst hi
      apply linkFold_fst_keys_mono s mId t rest
      apply linkStep_foldl_fst_keys_mem s mId _ acc d p _ hsel
      exact List.mem_filter.mpr ⟨hd, by simp [ht]⟩
    · exact ih _ i d p hi hd ht hsel

/-- C10: `GetAndLinkDependencies` deduplicates declared dependencies across a
manifest's installers before insertion: the produced dependency set carries
pairwise-distinct `(package row, manifest row, version-or-empty)` keys, and
every resolvable declared package dependency contributes its key exactly once
— repeated identical declarations never yield a second row. -/
theorem c10_get_and_link_deduplicates_declarations
    (s : Store) (man : Manifest) (mId : Nat) (rows : List DependencyTableRow)
    (h : getAndLinkDependencies s man mId DependencyType.package = Except.ok rows) :
    rows.Pairwise (fun a b => depKey a ≠ depKey b) ∧
    ∀ i ∈ man.installers, ∀ d ∈ i.dependencies,
      d.depType = DependencyType.package →
      ∀ p, selectIdByValue s d.id = some p →
        (p, mId, d.minVersion.getD "") ∈ rows.map depKey := by
  have hrows : rows = (linkFold s mId DependencyType.package man).1 := by
    unfold getAndLinkDependencies at h
    dsimp only at h
    split at h
    · exact (Except.ok.inj h).symm
    · exact Except.noConfusion h
  subst hrows
  constructor
  · exact linkFold_fst_pairwise s mId DependencyType.package man.installers ([], [])
      List.Pairwise.nil
  · intro i hi d hd ht p hsel
    exact linkFold_fst_keys_mem s mId DependencyType.package man.installers ([], [])
      i d p hi hd ht hsel

/-- Witness for C10 at a concrete input: two installers declaring the same
dependency `(P, no minimum version)` produce the single row set
`[(package 1, manifest 1, absent)]`. -/
theorem c10_deduplication_witness :
    ([⟨1, 1, none⟩] : List DependencyTableRow).Pairwise (fun a b => depKey a ≠ depKey b) ∧
    ∀ i ∈ manifestDupP.installers, ∀ d ∈ i.dependencies,
      d.depType = DependencyType.package →
      ∀ p, selectIdByValue storeP d.id = some p →
        (p, 1, d.minVersion.getD "") ∈ ([⟨1, 1, none⟩] : List DependencyTableRow).map depKey :=
  c10_get_and_link_deduplicates_declarations storeP manifestDupP 1 [⟨1, 1, none⟩] rfl
